import Mathlib

/-!
Verification of `encapt.py`, a coordination layer that loads "bean" source
units from disk, builds one worker agent per unit (plus a manager), and
exposes a small tool surface (file write, directory creation, test runs,
messaging).

The Python code is shallowly embedded: pure string manipulation is embedded
directly; the file system, the `os.walk` enumeration and the test subprocess
are made explicit inputs (a map of files, a list of walked entries, a
subprocess outcome).  Python `str.find` / slices / `strip` are modelled on
`List Char`, matching CPython semantics for the inputs the program uses.
-/

namespace Encapt

/-! ## Python string primitives, modelled on `List Char` -/

/-- `isPre p s`: the list `p` is an initial segment of `s`
(the semantics of Python `s.startswith(p)` on character lists). -/
def isPre : List Char → List Char → Bool
  | [], _ => true
  | _ :: _, [] => false
  | a :: as, b :: bs => a == b && isPre as bs

/-- `isSuf p s`: the list `p` is a final segment of `s`
(the semantics of Python `s.endswith(p)` on character lists). -/
def isSuf (p s : List Char) : Bool :=
  isPre p.reverse s.reverse

/-- Models Python `str.find(sub)` restricted to its result: the index of the
first occurrence of `sub` in `s`, or `none`.  (`pyFind` below packages the
`-1` convention.) -/
def ffind (sub : List Char) : List Char → Option Nat
  | [] => if sub.isEmpty then some 0 else none
  | c :: rest =>
    if isPre sub (c :: rest) then some 0
    else (ffind sub rest).map (· + 1)

/-- Python `s.find(sub)`: first index or `-1`. -/
def pyFind (s sub : List Char) : Int :=
  match ffind sub s with
  | some k => (k : Int)
  | none => -1

/-- First occurrence of `sub` in `s` at an index `≥ st`, or `none`. -/
def ffindFrom (sub s : List Char) (st : Nat) : Option Nat :=
  (ffind sub (s.drop st)).map (st + ·)

/-- Python `s.find(sub, start)`: a negative `start` counts from the end and
is clamped at `0`, exactly as CPython does. -/
def pyFindFrom (s sub : List Char) (start : Int) : Int :=
  let st : Nat := if start < 0 then ((s.length : Int) + start).toNat else start.toNat
  match ffind sub (s.drop st) with
  | some i => ((st + i : Nat) : Int)
  | none => -1

/-- Python slice `s[a:b]` for `0 ≤ a ≤ b` (the only use in this program). -/
def pySlice (s : List Char) (a b : Int) : List Char :=
  (s.take b.toNat).drop a.toNat

/-- Python `str.isspace` characters relevant to `str.strip()`. -/
def pyIsSpace (c : Char) : Bool :=
  c == ' ' || c == '\t' || c == '\n' || c == '\r' || c == '\x0b' || c == '\x0c'

/-- Python `s.strip()`: remove leading and trailing whitespace. -/
def pyStrip (s : List Char) : List Char :=
  ((s.dropWhile pyIsSpace).reverse.dropWhile pyIsSpace).reverse

/-- The doc-comment open marker `/**` (as in `content.find("/**")`). -/
def openMarker : List Char := ['/', '*', '*']

/-- The doc-comment close marker `*/` (as in `content.find("*/", start)`). -/
def closeMarker : List Char := ['*', '/']

/-- Embeds `QuarkusBean.extract_doc_comment`:
```
start = content.find("/**")
end = content.find("*/", start)
if start != -1 and end != -1:
    return content[start:end + 2].strip()
return ""
``` -/
def extract_doc_comment (content : List Char) : List Char :=
  if pyFind content openMarker ≠ -1 ∧
      pyFindFrom content closeMarker (pyFind content openMarker) ≠ -1 then
    pyStrip (pySlice content (pyFind content openMarker)
      (pyFindFrom content closeMarker (pyFind content openMarker) + 2))
  else []

/-- `sub` occurs in `s` at index `i`. -/
def occursAt (s sub : List Char) (i : Nat) : Bool :=
  isPre sub (s.drop i)

/-! ## Python string/path helpers on `String` -/

/-- Python `s.startswith(p)`. -/
def strStartsWith (s p : String) : Bool := isPre p.data s.data

/-- Python `s.endswith(p)` (case-sensitive, as in CPython). -/
def strEndsWith (s p : String) : Bool := isSuf p.data s.data

/-- POSIX `os.path.join(a, b)`: `b` wins if absolute; otherwise concatenate,
inserting a separator unless `a` is empty or already ends with one.  No
normalisation of `.` or `..` happens here, exactly as in CPython. -/
def os_path_join (a b : String) : String :=
  if strStartsWith b "/" then b
  else if a = "" || strEndsWith a "/" then a ++ b
  else a ++ "/" ++ b

/-- POSIX `os.path.basename(p)`: everything after the last `/`. -/
def os_path_basename (p : String) : String :=
  String.mk ((p.data.reverse.takeWhile (fun c => c ≠ '/')).reverse)

/-- Python `s.split('.')[0]`: the characters before the first `.`
(the whole of `s` when it has no dot). -/
def py_split_dot_head (s : String) : String :=
  String.mk (s.data.takeWhile (fun c => c ≠ '.'))

/-! ## The data model: beans, directories, the file system -/

/-- `EncaptWorkforce.PROJECT_ROOT`. -/
def PROJECT_ROOT : String := "./encapt-project"

/-- `EncaptWorkforce.BEANS_DIR = os.path.join(PROJECT_ROOT, "src", "main",
"kotlin", "org", "camelai", "beans")`. -/
def BEANS_DIR : String :=
  os_path_join (os_path_join (os_path_join (os_path_join (os_path_join
    (os_path_join PROJECT_ROOT "src") "main") "kotlin") "org") "camelai") "beans"

/-- A `QuarkusBean` as built by `QuarkusBean.__init__`. -/
structure QuarkusBean where
  file_path : String
  name : String
  content : String
  doc_comment : String
deriving DecidableEq, Inhabited

/-- `QuarkusBean.__init__(file_path)` with the file's text supplied
explicitly (the constructor reads it from disk):
`name = os.path.basename(file_path).split('.')[0]`,
`doc_comment = extract_doc_comment(content)`. -/
def mkBean (file_path content : String) : QuarkusBean :=
  { file_path := file_path
    name := py_split_dot_head (os_path_basename file_path)
    content := content
    doc_comment := String.mk (extract_doc_comment content.data) }

/-- One entry of the `os.walk(BEANS_DIR)` enumeration: a directory `root`
containing a file named `fileName` whose text is `content`. -/
structure SrcFile where
  root : String
  fileName : String
  content : String
deriving DecidableEq

/-- `EncaptWorkforce._load_beans`: keep the walked files ending in `.kt` and
build a `QuarkusBean` from `os.path.join(root, file)` for each. -/
def load_beans (files : List SrcFile) : List QuarkusBean :=
  (files.filter (fun f => strEndsWith f.fileName ".kt")).map
    (fun f => mkBean (os_path_join f.root f.fileName) f.content)

/-! ## Agent prompts (`_setup_workforce` / `_create_bean_agent`) -/

/-- The manager agent's fixed system message content. -/
def manager_prompt : String :=
  "You are responsible for managing the Quarkus codebase.\n            Your responsibilities include:\n            1. Coordinating changes across multiple beans\n            2. Ensuring overall project consistency\n            3. Delegating tasks to appropriate bean agents\n\n            Use the provided tools to write files, run tests, get test summaries, and send messages to other agents when needed.\n\n            When creating a new agent or bean, only write a kotlin class with appropriate Quarkus annotations and a doc comment that outlines the responsibilities of the bean. The agent will handle the rest.\n\n            Always wrap your final response in <result> tags.\n            "

/-- The per-peer strings of `_create_bean_agent`: for each bean `b` of
`self.beans` with `b.name != bean.name`, the string `f'{b.name}: {b.doc_comment}'`. -/
def other_beans_listing (beans : List QuarkusBean) (name : String) : List String :=
  (beans.filter (fun b => b.name ≠ name)).map (fun b => b.name ++ ": " ++ b.doc_comment)

/-- `', '.join(...)` over `other_beans_listing`. -/
def other_beans_line (beans : List QuarkusBean) (name : String) : String :=
  String.intercalate ", " (other_beans_listing beans name)

/-- The worker agent's system message content built by `_create_bean_agent`
(the f-string with its three interpolations). -/
def bean_agent_prompt (beans : List QuarkusBean) (bean : QuarkusBean) : String :=
  "You are responsible for the " ++ bean.name ++ " Quarkus bean.\n            Your responsibilities include:\n            " ++ bean.doc_comment ++ "\n\n            Here are the other beans and their responsibilities, derived from the classes doccomment:\n            " ++ other_beans_line beans bean.name ++ ". Inject them using quarkus @Inject annotation as appropriate and needed.\n\n            Fully implement the responsibilities of the bean.\n            Use the provided tools to read and modify your bean's content, run tests, get test summaries, and send messages to other agents.\n            When you notice code errors or a failed test, edit the code and try running again, until the tests pass.\n            Coordinate with the Manager Agent for changes that affect multiple beans. When you make changes, ensure they are tested and working correctly. Edit and test until you are happy.\n\n            Message another agent with your message tool if you need to know more details about its service, ask for help, or request a change. You should also work with them to meet the shared responsibilities of the beans.\n\n            Always wrap your final response in <result> tags.\n            "

/-- The worker agents created by the `for bean in self.beans` loop of
`_setup_workforce`: `add_single_agent_worker(bean.name, agent-with-prompt)`,
one per bean, in load order. -/
def worker_agents (beans : List QuarkusBean) : List (String × String) :=
  beans.map (fun b => (b.name, bean_agent_prompt beans b))

/-- `_setup_workforce`: the manager is added first, then one worker per bean. -/
def setup_workforce (beans : List QuarkusBean) : List (String × String) :=
  ("Manager", manager_prompt) :: worker_agents beans

/-- The name-and-doc view of a bean: all prompt text depends only on this. -/
def beanProfile (b : QuarkusBean) : String × String := (b.name, b.doc_comment)

/-! ## The file-system model and the tool surface -/

/-- Set `k` to `v` in an association list (first occurrence replaced,
appended when absent) — the effect of `open(path, 'w'); write(content)`. -/
def assocSet (l : List (String × String)) (k v : String) : List (String × String) :=
  match l with
  | [] => [(k, v)]
  | (k', v') :: rest => if k' = k then (k, v) :: rest else (k', v') :: assocSet rest k v

/-- Look up `k` in an association list. -/
def assocGet (l : List (String × String)) (k : String) : Option String :=
  match l with
  | [] => none
  | (k', v') :: rest => if k' = k then some v' else assocGet rest k

/-- The file system visible to the tool surface: regular files (path to
text) and the set of created directory paths. -/
structure FS where
  files : List (String × String)
  dirs : List String
deriving DecidableEq

/-- What the operating system does with one `open(path, 'w')` attempt: the
file at the path is created or truncated for writing, or the open raises an
`IOError` (= `OSError`: the parent directory is missing, the path exists as
a directory, a permission is refused, ...) carrying the message `str(e)`. -/
inductive OpenOutcome where
  | opened
  | ioError (msg : String)
deriving DecidableEq

/-- `EncaptWorkforce.write_file(file_name, content)`: reject names not
ending in `.kt` with an error string; otherwise open
`os.path.join(BEANS_DIR, file_name)` for writing and store the content, and
when the open raises `IOError` the `except` branch returns an error string
embedding the exception text, mutating nothing. -/
def write_file (fs : FS) (openOutcome : OpenOutcome) (file_name content : String) :
    String × FS :=
  if !(strEndsWith file_name ".kt") then
    ("Error: Only .kt files are allowed.", fs)
  else
    match openOutcome with
    | .opened =>
      ("Successfully wrote content to " ++ file_name,
        { fs with files := assocSet fs.files (os_path_join BEANS_DIR file_name) content })
    | .ioError msg => ("Error writing to file: " ++ msg, fs)

/-- `EncaptWorkforce.create_directory(dir_name)`:
`os.makedirs(os.path.join(BEANS_DIR, dir_name), exist_ok=True)`.  With
`exist_ok=True` the call raises `OSError` only when the path exists as a
non-directory (modelled by the `files` lookup); an existing directory is
accepted silently.  Created directory paths are collected without
duplicates, as on a real file system. -/
def create_directory (fs : FS) (dir_name : String) : String × FS :=
  if (assocGet fs.files (os_path_join BEANS_DIR dir_name)).isSome then
    ("Error creating directory: File exists: " ++ os_path_join BEANS_DIR dir_name, fs)
  else
    ("Successfully created directory " ++ dir_name,
      { fs with dirs := fs.dirs.insert (os_path_join BEANS_DIR dir_name) })

/-! ## Path resolution (the operating system's view, for the traversal claim) -/

/-- Split a path into `/`-separated segments. -/
def splitSlash : List Char → List (List Char)
  | [] => [[]]
  | c :: rest =>
    if c = '/' then [] :: splitSlash rest
    else
      match splitSlash rest with
      | [] => [[c]]
      | seg :: segs => (c :: seg) :: segs

/-- Models the operating system's resolution of a relative path: empty and
`.` segments vanish, `..` removes the segment before it. -/
def resolveSegs (segs : List (List Char)) : List (List Char) :=
  segs.foldl
    (fun acc seg =>
      if seg = [] ∨ seg = ['.'] then acc
      else if seg = ['.', '.'] then acc.dropLast
      else acc ++ [seg]) []

/-- After resolution, is `p` inside directory `d`? -/
def pathUnder (d p : String) : Bool :=
  (resolveSegs (splitSlash d.data)).isPrefixOf (resolveSegs (splitSlash p.data))

/-! ## The test-runner tools (`subprocess.run` with `check=True`) -/

/-- What the operating system does with one `subprocess.run` invocation:
either the process runs to completion (exit code, captured standard output
and error), or spawning fails (for example `./gradlew` does not exist). -/
inductive SpawnOutcome where
  | completed (exitCode : Nat) (stdoutText : String) (stderrText : String)
  | spawnFailure (msg : String)
deriving DecidableEq

/-- The Python exceptions the embedded tools can raise. -/
inductive PyError where
  | calledProcessError (returncode : Nat) (output : String)
  | osError (msg : String)
deriving DecidableEq

/-- `subprocess.run(..., capture_output=True, text=True, check=True)`:
`check=True` turns a non-zero exit status into `CalledProcessError` (whose
`output` is the captured standard output); a spawn failure raises `OSError`
(`FileNotFoundError` is a subclass). -/
def subprocess_run_checked (outcome : SpawnOutcome) : Except PyError (String × String) :=
  match outcome with
  | .spawnFailure msg => .error (.osError msg)
  | .completed code so se =>
    if code = 0 then .ok (so, se) else .error (.calledProcessError code so)

/-- `EncaptWorkforce.run_all_bean_tests`: the `try` block runs the gradle
test command; only `subprocess.CalledProcessError` is caught and turned
into an error string; any other exception propagates. -/
def run_all_bean_tests (outcome : SpawnOutcome) : Except PyError String :=
  match subprocess_run_checked outcome with
  | .ok (so, _) => .ok so
  | .error (.calledProcessError _ output) =>
    .ok ("Error running bean tests: " ++ output)
  | .error e => .error e

/-- `EncaptWorkforce.run_specific_bean_test(bean_name)`: same shape as
`run_all_bean_tests`, with the bean name in the filter and the message. -/
def run_specific_bean_test (bean_name : String) (outcome : SpawnOutcome) :
    Except PyError String :=
  match subprocess_run_checked outcome with
  | .ok (so, _) => .ok so
  | .error (.calledProcessError _ output) =>
    .ok ("Error running test for " ++ bean_name ++ ": " ++ output)
  | .error e => .error e

/-! ## Concrete inputs used by counterexamples and witnesses -/

/-- Two walked files with the same base name `Foo.kt` in different
subdirectories of the beans tree. -/
def c2_files : List SrcFile :=
  [ { root := os_path_join BEANS_DIR "a", fileName := "Foo.kt",
      content := "/** docA */ class Foo" },
    { root := os_path_join BEANS_DIR "b", fileName := "Foo.kt",
      content := "/** docB */ class Foo" } ]

/-- The beans loaded from `c2_files`. -/
def c2_beans : List QuarkusBean := load_beans c2_files

/-- A single walked file whose base name contains two dots. -/
def c6_files : List SrcFile :=
  [ { root := BEANS_DIR, fileName := "A.b.kt", content := "class A" } ]

/-- The empty file system. -/
def fs0 : FS := { files := [], dirs := [] }

/-! ## Basic lemmas about the string primitives -/

theorem isPre_nil (l : List Char) : isPre [] l = true := by
  cases l <;> rfl

theorem isPre_cons (a : Char) (as b : List Char) :
    isPre (a :: as) b = match b with
      | [] => false
      | c :: cs => a == c && isPre as cs := by
  cases b <;> rfl

theorem isPre_append_self (l t : List Char) : isPre l (l ++ t) = true := by
  induction l with
  | nil => exact isPre_nil t
  | cons c cs ih => simp [isPre, ih]

theorem isPre_iff_exists (l s : List Char) :
    isPre l s = true ↔ ∃ t, s = l ++ t := by
  induction l generalizing s with
  | nil => simp only [isPre_nil, List.nil_append, true_iff]; exact ⟨s, rfl⟩
  | cons c cs ih =>
    cases s with
    | nil => simp [isPre]
    | cons b bs =>
      simp only [isPre, Bool.and_eq_true, beq_iff_eq, ih, List.cons_append, List.cons.injEq]
      constructor
      · rintro ⟨hcb, t, ht⟩; exact ⟨t, hcb.symm, ht⟩
      · rintro ⟨t, hcb, ht⟩; exact ⟨hcb.symm, t, ht⟩

theorem isSuf_append_self (l t : List Char) : isSuf l (t ++ l) = true := by
  unfold isSuf
  rw [List.reverse_append]
  exact isPre_append_self l.reverse t.reverse

theorem occursAt_zero (s sub : List Char) : occursAt s sub 0 = isPre sub s := by
  simp [occursAt]

theorem occursAt_cons_succ (c : Char) (rest sub : List Char) (j : Nat) :
    occursAt (c :: rest) sub (j + 1) = occursAt rest sub j := by
  simp [occursAt]

theorem occursAt_nil (sub : List Char) (j : Nat) :
    occursAt [] sub j = sub.isEmpty := by
  cases sub <;> simp [occursAt, isPre, List.isEmpty]

theorem ffind_eq_some_iff (sub : List Char) :
    ∀ (s : List Char) (k : Nat),
      ffind sub s = some k ↔
        (occursAt s sub k = true ∧ ∀ j, j < k → occursAt s sub j = false) := by
  intro s
  induction s with
  | nil =>
    intro k
    unfold ffind
    by_cases h : sub.isEmpty
    · rw [if_pos h]
      constructor
      · rintro hk
        injection hk with hk
        subst hk
        exact ⟨by rw [occursAt_nil, h], fun j hj => absurd hj (Nat.not_lt_zero j)⟩
      · rintro ⟨-, hmin⟩
        cases k with
        | zero => rfl
        | succ n =>
          have := hmin 0 (Nat.succ_pos n)
          rw [occursAt_nil, h] at this
          cases this
    · rw [if_neg h]
      constructor
      · intro hk; cases hk
      · rintro ⟨hocc, -⟩
        rw [occursAt_nil] at hocc
        exact absurd hocc h
  | cons c rest ih =>
    intro k
    unfold ffind
    by_cases hp : isPre sub (c :: rest) = true
    · rw [if_pos hp]
      constructor
      · rintro hk
        injection hk with hk
        subst hk
        exact ⟨by rw [occursAt_zero]; exact hp,
          fun j hj => absurd hj (Nat.not_lt_zero j)⟩
      · rintro ⟨-, hmin⟩
        cases k with
        | zero => rfl
        | succ n =>
          have := hmin 0 (Nat.succ_pos n)
          rw [occursAt_zero, hp] at this
          cases this
    · rw [if_neg hp]
      constructor
      · intro hk
        cases hr : ffind sub rest with
        | none => rw [hr] at hk; cases hk
        | some k' =>
          rw [hr] at hk
          injection hk with hk
          subst hk
          obtain ⟨hocc, hmin⟩ := (ih k').mp hr
          refine ⟨by rw [occursAt_cons_succ]; exact hocc, ?_⟩
          intro j hj
          cases j with
          | zero =>
            rw [occursAt_zero]
            exact Bool.not_eq_true _ ▸ (by simpa using hp)
          | succ m =>
            rw [occursAt_cons_succ]
            exact hmin m (Nat.lt_of_succ_lt_succ hj)
      · rintro ⟨hocc, hmin⟩
        cases k with
        | zero =>
          rw [occursAt_zero] at hocc
          exact absurd hocc hp
        | succ m =>
          have hr : ffind sub rest = some m := by
            refine (ih m).mpr ⟨by rw [← occursAt_cons_succ c]; exact hocc, ?_⟩
            intro j hj
            have := hmin (j + 1) (Nat.succ_lt_succ hj)
            rwa [occursAt_cons_succ] at this
          rw [hr]
          rfl

theorem ffind_eq_none_iff (sub : List Char) :
    ∀ s : List Char, ffind sub s = none ↔ ∀ j, occursAt s sub j = false := by
  intro s
  induction s with
  | nil =>
    unfold ffind
    by_cases h : sub.isEmpty
    · rw [if_pos h]
      constructor
      · intro hk; cases hk
      · intro hall
        have := hall 0
        rw [occursAt_nil, h] at this
        cases this
    · rw [if_neg h]
      constructor
      · intro _ j
        rw [occursAt_nil]
        exact Bool.not_eq_true _ ▸ (by simpa using h)
      · intro _; rfl
  | cons c rest ih =>
    unfold ffind
    by_cases hp : isPre sub (c :: rest) = true
    · rw [if_pos hp]
      constructor
      · intro hk; cases hk
      · intro hall
        have := hall 0
        rw [occursAt_zero, hp] at this
        cases this
    · rw [if_neg hp]
      constructor
      · intro hk j
        cases hr : ffind sub rest with
        | none =>
          cases j with
          | zero =>
            rw [occursAt_zero]
            exact Bool.not_eq_true _ ▸ (by simpa using hp)
          | succ m =>
            rw [occursAt_cons_succ]
            exact (ih.mp hr) m
        | some k' => rw [hr] at hk; cases hk
      · intro hall
        have hr : ffind sub rest = none := by
          refine ih.mpr ?_
          intro j
          have := hall (j + 1)
          rwa [occursAt_cons_succ] at this
        rw [hr]
        rfl

theorem ffindFrom_eq_some_iff (sub s : List Char) (st : Nat) (e : Nat) :
    ffindFrom sub s st = some e ↔
      (st ≤ e ∧ occursAt s sub e = true ∧
        ∀ j, st ≤ j → j < e → occursAt s sub j = false) := by
  have hshift : ∀ m, occursAt (s.drop st) sub m = occursAt s sub (st + m) := by
    intro m
    simp [occursAt, List.drop_drop, Nat.add_comm]
  unfold ffindFrom
  constructor
  · intro h
    cases hr : ffind sub (s.drop st) with
    | none => rw [hr] at h; simp at h
    | some k =>
      rw [hr] at h
      have he : st + k = e := by simpa using h
      subst he
      obtain ⟨hocc, hmin⟩ := (ffind_eq_some_iff sub (s.drop st) k).mp hr
      refine ⟨Nat.le_add_right st k, by rwa [hshift] at hocc, ?_⟩
      intro j hj1 hj2
      have := hmin (j - st) (by omega)
      rwa [hshift, Nat.add_sub_cancel' hj1] at this
  · rintro ⟨hle, hocc, hmin⟩
    have hr : ffind sub (s.drop st) = some (e - st) := by
      refine (ffind_eq_some_iff sub (s.drop st) (e - st)).mpr ⟨?_, ?_⟩
      · rwa [hshift, Nat.add_sub_cancel' hle]
      · intro j hj
        rw [hshift]
        exact hmin (st + j) (Nat.le_add_right st j) (by omega)
    rw [hr]
    have : st + (e - st) = e := by omega
    simp [this]

theorem ffindFrom_eq_none_iff (sub s : List Char) (st : Nat) :
    ffindFrom sub s st = none ↔ ∀ j, st ≤ j → occursAt s sub j = false := by
  have hshift : ∀ m, occursAt (s.drop st) sub m = occursAt s sub (st + m) := by
    intro m
    simp [occursAt, List.drop_drop, Nat.add_comm]
  unfold ffindFrom
  constructor
  · intro h j hj
    cases hr : ffind sub (s.drop st) with
    | none =>
      have := (ffind_eq_none_iff sub (s.drop st)).mp hr (j - st)
      rwa [hshift, Nat.add_sub_cancel' hj] at this
    | some k => rw [hr] at h; cases h
  · intro hall
    have hr : ffind sub (s.drop st) = none := by
      refine (ffind_eq_none_iff sub (s.drop st)).mpr ?_
      intro m
      rw [hshift]
      exact hall (st + m) (Nat.le_add_right st m)
    rw [hr]
    rfl

theorem pyFindFrom_natCast_none (s sub : List Char) (k : Nat)
    (h : ffindFrom sub s k = none) : pyFindFrom s sub (k : Int) = -1 := by
  have h0 : ¬((k : Int) < 0) := by omega
  unfold ffindFrom at h
  simp only [pyFindFrom, if_neg h0, Int.toNat_natCast]
  cases hr : ffind sub (s.drop k) with
  | none => rfl
  | some i => rw [hr] at h; simp at h

theorem pyFindFrom_natCast_some (s sub : List Char) (k e : Nat)
    (h : ffindFrom sub s k = some e) : pyFindFrom s sub (k : Int) = (e : Int) := by
  have h0 : ¬((k : Int) < 0) := by omega
  unfold ffindFrom at h
  simp only [pyFindFrom, if_neg h0, Int.toNat_natCast]
  cases hr : ffind sub (s.drop k) with
  | none => rw [hr] at h; simp at h
  | some i =>
    rw [hr] at h
    have he : k + i = e := by simpa using h
    simp [he]

/-- If the open marker does not occur, extraction returns the empty string. -/
theorem extract_of_no_open (content : List Char)
    (h : ffind openMarker content = none) : extract_doc_comment content = [] := by
  have hf : pyFind content openMarker = -1 := by simp [pyFind, h]
  unfold extract_doc_comment
  rw [hf, if_neg]
  rintro ⟨h1, -⟩
  exact h1 rfl

/-- If the close marker does not occur at or after the first open marker,
extraction returns the empty string. -/
theorem extract_of_no_close (content : List Char) (k : Nat)
    (h1 : ffind openMarker content = some k)
    (h2 : ffindFrom closeMarker content k = none) :
    extract_doc_comment content = [] := by
  have hf : pyFind content openMarker = (k : Int) := by simp [pyFind, h1]
  have hg : pyFindFrom content closeMarker (k : Int) = -1 :=
    pyFindFrom_natCast_none _ _ _ h2
  unfold extract_doc_comment
  rw [hf, hg, if_neg]
  rintro ⟨-, hcl⟩
  exact hcl rfl

/-- When both markers are found, extraction returns the stripped slice from
the open marker through the close marker inclusive. -/
theorem extract_of_found (content : List Char) (k e : Nat)
    (h1 : ffind openMarker content = some k)
    (h2 : ffindFrom closeMarker content k = some e) :
    extract_doc_comment content = pyStrip ((content.take (e + 2)).drop k) := by
  have hf : pyFind content openMarker = (k : Int) := by simp [pyFind, h1]
  have hg : pyFindFrom content closeMarker (k : Int) = (e : Int) :=
    pyFindFrom_natCast_some _ _ _ _ h2
  unfold extract_doc_comment
  rw [hf, hg, if_pos ⟨by omega, by omega⟩]
  unfold pySlice
  have h3 : ((e : Int) + 2).toNat = e + 2 := by omega
  have h4 : ((k : Int)).toNat = k := by omega
  rw [h3, h4]

/-- A string whose first and last characters are not whitespace is fixed by
`strip()`. -/
theorem pyStrip_eq_self (s : List Char) (a b : Char) (u v : List Char)
    (h1 : s = a :: u) (h2 : s = v ++ [b])
    (ha : pyIsSpace a = false) (hb : pyIsSpace b = false) :
    pyStrip s = s := by
  have hd : s.dropWhile pyIsSpace = s := by
    rw [h1, List.dropWhile_cons, ha]
    simp
  unfold pyStrip
  rw [hd]
  have hr : s.reverse = b :: v.reverse := by
    rw [h2, List.reverse_append]
    rfl
  rw [hr, List.dropWhile_cons, hb]
  simp [← hr]

/-! ## C1: what doc-comment extraction returns -/

/-- **C1, counterexample.**  The claim says extraction returns the trimmed
text strictly between the markers ("doc" here), excluding the markers; the
code returns the slice `content[start:end + 2]`, which includes them. -/
theorem C1_counterexample :
    extract_doc_comment ("a/**doc*/b".data) = "/**doc*/".data ∧
    extract_doc_comment ("a/**doc*/b".data) ≠ "doc".data := by
  decide

/-- **C1, amended.**  For every file content: (1) if the content decomposes
as `pre ++ "/**" ++ mid ++ "*/" ++ post` with no open marker before `pre.length`
and no close marker from `pre.length` up to the shown one, extraction
returns the trimmed text from the open marker through the close marker,
markers included; (2) if the open marker is absent, it returns the empty
string; (3) if a close marker occurs nowhere at or after the first open
marker (in particular when the only close marker stands before it),
it returns the empty string. -/
theorem C1_amended (content pre mid post : List Char) :
    (content = pre ++ openMarker ++ mid ++ closeMarker ++ post →
      (∀ j, j < pre.length → occursAt content openMarker j = false) →
      (∀ j, j < pre.length + 3 + mid.length → pre.length ≤ j →
        occursAt content closeMarker j = false) →
      extract_doc_comment content = pyStrip (openMarker ++ mid ++ closeMarker)) ∧
    ((∀ j, occursAt content openMarker j = false) →
      extract_doc_comment content = []) ∧
    (content = pre ++ openMarker ++ post →
      (∀ j, j < pre.length → occursAt content openMarker j = false) →
      (∀ j, pre.length ≤ j → occursAt content closeMarker j = false) →
      extract_doc_comment content = []) := by
  refine ⟨?_, ?_, ?_⟩
  · intro hc h1 h2
    have hocc1 : occursAt content openMarker pre.length = true := by
      have hdrop : content.drop pre.length = openMarker ++ (mid ++ closeMarker ++ post) := by
        rw [hc]
        have hassoc : pre ++ openMarker ++ mid ++ closeMarker ++ post
            = pre ++ (openMarker ++ (mid ++ closeMarker ++ post)) := by
          simp [List.append_assoc]
        rw [hassoc, List.drop_left]
      rw [occursAt, hdrop]
      exact isPre_append_self _ _
    have hk : ffind openMarker content = some pre.length :=
      (ffind_eq_some_iff _ _ _).mpr ⟨hocc1, h1⟩
    have hocc2 : occursAt content closeMarker (pre.length + 3 + mid.length) = true := by
      have hc2 : content = (pre ++ openMarker ++ mid) ++ (closeMarker ++ post) := by
        rw [hc]
        simp [List.append_assoc]
      have hlen : (pre ++ openMarker ++ mid).length = pre.length + 3 + mid.length := by
        simp [openMarker]
        omega
      have hdrop : content.drop (pre.length + 3 + mid.length) = closeMarker ++ post := by
        rw [hc2, ← hlen, List.drop_left]
      rw [occursAt, hdrop]
      exact isPre_append_self _ _
    have he : ffindFrom closeMarker content pre.length
        = some (pre.length + 3 + mid.length) :=
      (ffindFrom_eq_some_iff _ _ _ _).mpr
        ⟨by omega, hocc2, fun j hj1 hj2 => h2 j hj2 hj1⟩
    rw [extract_of_found content pre.length (pre.length + 3 + mid.length) hk he]
    have hA : content = (pre ++ (openMarker ++ mid ++ closeMarker)) ++ post := by
      rw [hc]
      simp [List.append_assoc]
    have hlenA : (pre ++ (openMarker ++ mid ++ closeMarker)).length
        = pre.length + 3 + mid.length + 2 := by
      simp [openMarker, closeMarker]
      omega
    have htake : content.take (pre.length + 3 + mid.length + 2)
        = pre ++ (openMarker ++ mid ++ closeMarker) := by
      rw [hA, ← hlenA, List.take_left]
    rw [htake, List.drop_left]
  · intro hall
    exact extract_of_no_open content ((ffind_eq_none_iff _ _).mpr hall)
  · intro hc h1 h2
    have hocc1 : occursAt content openMarker pre.length = true := by
      have hdrop : content.drop pre.length = openMarker ++ post := by
        rw [hc]
        have hassoc : pre ++ openMarker ++ post = pre ++ (openMarker ++ post) := by
          simp [List.append_assoc]
        rw [hassoc, List.drop_left]
      rw [occursAt, hdrop]
      exact isPre_append_self _ _
    have hk : ffind openMarker content = some pre.length :=
      (ffind_eq_some_iff _ _ _).mpr ⟨hocc1, h1⟩
    have he : ffindFrom closeMarker content pre.length = none :=
      (ffindFrom_eq_none_iff _ _ _).mpr h2
    exact extract_of_no_close content pre.length hk he

/-- **C1, witness.**  The amended statement evaluated on `"a/**doc*/b"`. -/
theorem C1_witness :
    extract_doc_comment ("a/**doc*/b".data)
      = pyStrip (openMarker ++ "doc".data ++ closeMarker) :=
  (C1_amended ("a/**doc*/b".data) ("a".data) ("doc".data) ("b".data)).1
    (by decide) (by decide) (by decide)

/-! ## C9: a non-empty extraction keeps the delimiting markers -/

/-- **C9.**  Whenever doc-comment extraction returns a non-empty string,
that string begins with `/**` and ends with `*/`. -/
theorem C9_markers_kept (content : List Char)
    (h : extract_doc_comment content ≠ []) :
    isPre openMarker (extract_doc_comment content) = true ∧
    isSuf closeMarker (extract_doc_comment content) = true := by
  cases hk : ffind openMarker content with
  | none => exact absurd (extract_of_no_open content hk) h
  | some k =>
    cases he : ffindFrom closeMarker content k with
    | none => exact absurd (extract_of_no_close content k hk he) h
    | some e =>
      obtain ⟨hocc1, -⟩ := (ffind_eq_some_iff _ _ _).mp hk
      obtain ⟨hke, hocc2, -⟩ := (ffindFrom_eq_some_iff _ _ _ _).mp he
      rw [occursAt] at hocc1 hocc2
      obtain ⟨t1, ht1⟩ := (isPre_iff_exists _ _).mp hocc1
      obtain ⟨t2, ht2⟩ := (isPre_iff_exists _ _).mp hocc2
      have hk2e : k + 2 ≤ e := by
        rcases Nat.lt_or_ge e (k + 2) with hlt | hge
        · have hcase : e = k ∨ e = k + 1 := by omega
          rcases hcase with rfl | rfl
          · rw [ht1] at ht2
            simp [openMarker, closeMarker] at ht2
          · have hd1 : (content.drop k).drop 1 = closeMarker ++ t2 := by
              rw [List.drop_drop]
              exact ht2
            rw [ht1] at hd1
            simp [openMarker, closeMarker] at hd1
        · exact hge
      rw [extract_of_found content k e hk he]
      set S := (content.take (e + 2)).drop k with hSdef
      have hS1 : S = (content.drop k).take (e + 2 - k) := by
        rw [hSdef, List.drop_take]
      have hpre : S = openMarker ++ t1.take (e + 2 - k - 3) := by
        rw [hS1, ht1, List.take_append_eq_append_take,
          List.take_of_length_le (by simp [openMarker]; omega : openMarker.length ≤ e + 2 - k)]
        rfl
      have hsuf : S.drop (e - k) = closeMarker := by
        rw [hS1, List.drop_take, List.drop_drop]
        have h1 : k + (e - k) = e := by omega
        have h2 : e + 2 - k - (e - k) = 2 := by omega
        rw [h1, h2, ht2, List.take_append_eq_append_take]
        simp [closeMarker]
      have hdecomp : S = S.take (e - k) ++ closeMarker := by
        conv_lhs => rw [← List.take_append_drop (e - k) S]
        rw [hsuf]
      have hback : S = (S.take (e - k) ++ ['*']) ++ ['/'] := by
        rw [List.append_assoc]
        exact hdecomp
      have hstrip : pyStrip S = S :=
        pyStrip_eq_self S '/' '/' ('*' :: '*' :: t1.take (e + 2 - k - 3))
          (S.take (e - k) ++ ['*']) hpre hback rfl rfl
      rw [hstrip]
      constructor
      · rw [hpre]
        exact isPre_append_self _ _
      · rw [hdecomp]
        exact isSuf_append_self _ _

/-- **C9, witness.**  Evaluated on `"x/** d */y"`. -/
theorem C9_witness :
    isPre openMarker (extract_doc_comment ("x/** d */y".data)) = true ∧
    isSuf closeMarker (extract_doc_comment ("x/** d */y".data)) = true :=
  C9_markers_kept ("x/** d */y".data) (by decide)

/-! ## C6: the name of a loaded unit -/

theorem takeWhile_append_stop (stem rest : List Char) (h : ∀ c ∈ stem, c ≠ '.') :
    (stem ++ '.' :: rest).takeWhile (fun c => c ≠ '.') = stem := by
  induction stem with
  | nil =>
    rw [List.nil_append, List.takeWhile_cons, if_neg (by simp)]
  | cons c cs ih =>
    have hc : c ≠ '.' := h c (List.mem_cons_self c cs)
    rw [List.cons_append, List.takeWhile_cons, if_pos (decide_eq_true hc),
      ih (fun x hx => h x (List.mem_cons_of_mem c hx))]

theorem takeWhile_all_ne (l : List Char) (h : ∀ c ∈ l, c ≠ '.') :
    l.takeWhile (fun c => c ≠ '.') = l := by
  induction l with
  | nil => rfl
  | cons c cs ih =>
    have hc : c ≠ '.' := h c (List.mem_cons_self c cs)
    rw [List.takeWhile_cons, if_pos (decide_eq_true hc),
      ih (fun x hx => h x (List.mem_cons_of_mem c hx))]

/-- **C6, counterexample.**  A loaded file whose base name is `A.b.kt` yields
the unit name `A` (the text before the *first* dot), not `A.b` as the claim
("base name with its extension removed") requires. -/
theorem C6_counterexample :
    (load_beans c6_files).map QuarkusBean.name = ["A"] ∧
    (load_beans c6_files).map QuarkusBean.name ≠ ["A.b"] := by
  decide

/-- **C6, amended.**  For every loaded source file the Unit's content is the
full file text, and its name is the portion of the base file name before the
first dot (the whole base name when it has no dot). -/
theorem C6_amended (path content stem rest : String) :
    ((mkBean path content).content = content) ∧
    ((os_path_basename path).data = stem.data ++ '.' :: rest.data →
      (∀ c ∈ stem.data, c ≠ '.') → (mkBean path content).name = stem) ∧
    ((∀ c ∈ (os_path_basename path).data, c ≠ '.') →
      (mkBean path content).name = os_path_basename path) := by
  refine ⟨rfl, ?_, ?_⟩
  · intro hdec hnd
    show py_split_dot_head (os_path_basename path) = stem
    unfold py_split_dot_head
    rw [hdec, takeWhile_append_stop stem.data rest.data hnd]
  · intro hall
    show py_split_dot_head (os_path_basename path) = os_path_basename path
    unfold py_split_dot_head
    rw [takeWhile_all_ne _ hall]

/-- **C6, witness.**  Evaluated on a file `dir/A.b.kt`. -/
theorem C6_witness :
    (mkBean "dir/A.b.kt" "class A").content = "class A" ∧
    (mkBean "dir/A.b.kt" "class A").name = "A" :=
  ⟨(C6_amended "dir/A.b.kt" "class A" "A" "b.kt").1,
   (C6_amended "dir/A.b.kt" "class A" "A" "b.kt").2.1 (by decide) (by decide)⟩

/-! ## Association-list lemmas for the file-system model -/

theorem assocGet_set_self (l : List (String × String)) (k v : String) :
    assocGet (assocSet l k v) k = some v := by
  induction l with
  | nil => simp [assocSet, assocGet]
  | cons p rest ih =>
    obtain ⟨q, w⟩ := p
    by_cases h : q = k
    · simp [assocSet, assocGet, h]
    · simp [assocSet, assocGet, h, ih]

theorem assocGet_set_ne (l : List (String × String)) (k v q : String) (h : q ≠ k) :
    assocGet (assocSet l k v) q = assocGet l q := by
  induction l with
  | nil => simp [assocSet, assocGet, Ne.symm h]
  | cons p rest ih =>
    obtain ⟨a, w⟩ := p
    by_cases ha : a = k
    · subst ha
      simp [assocSet, assocGet, Ne.symm h]
    · simp [assocSet, assocGet, ha, ih]

/-! ## String-inequality helpers for the tool status messages -/

theorem data_head_append (s t : String) (c : Char)
    (h : s.data.head? = some c) : (s ++ t).data.head? = some c := by
  obtain ⟨sd⟩ := s
  obtain ⟨td⟩ := t
  cases sd with
  | nil => exact Option.noConfusion h
  | cons a as =>
    cases h
    rfl

theorem data_take_append (s t : String) (n : Nat) (h : n ≤ s.data.length) :
    (s ++ t).data.take n = s.data.take n := by
  obtain ⟨sd⟩ := s
  obtain ⟨td⟩ := t
  exact List.take_append_of_le_length h

theorem write_success_ne_reject (name : String) :
    ("Successfully wrote content to " ++ name)
      ≠ "Error: Only .kt files are allowed." := by
  intro h
  have h1 : ("Successfully wrote content to " ++ name).data.head? = some 'S' :=
    data_head_append _ name 'S' rfl
  rw [h] at h1
  exact absurd h1 (by decide)

theorem write_error_ne_reject (msg : String) :
    ("Error writing to file: " ++ msg)
      ≠ "Error: Only .kt files are allowed." := by
  intro h
  have h1 := congrArg (fun s : String => s.data.take 7) h
  simp only [data_take_append "Error writing to file: " msg 7 (by decide)] at h1
  exact absurd h1 (by decide)

/-! ## C4: the write tool's extension guard and error handling -/

/-- **C4, counterexample.**  The claim says every `.kt` write overwrites or
creates the target with the given content; but when opening the target
raises `IOError` — here the target path exists as a directory, which this
very tool surface can produce since `create_directory` has no extension
guard — `write_file` returns the `except IOError` error string and stores
nothing. -/
theorem C4_counterexample :
    strEndsWith "Sub.kt" ".kt" = true ∧
    write_file (create_directory fs0 "Sub.kt").2
        (OpenOutcome.ioError "[Errno 21] Is a directory") "Sub.kt" "class S"
      = ("Error writing to file: " ++ "[Errno 21] Is a directory",
         (create_directory fs0 "Sub.kt").2) ∧
    assocGet (write_file (create_directory fs0 "Sub.kt").2
          (OpenOutcome.ioError "[Errno 21] Is a directory") "Sub.kt" "class S").2.files
        (os_path_join BEANS_DIR "Sub.kt") = none := by
  refine ⟨by decide, rfl, rfl⟩

/-- **C4, amended.**  `write_file` with a name not ending in `.kt` returns
the rejection string and leaves the file system untouched, whatever the
open would do; with a name ending in `.kt`, if opening the target succeeds
it reports success, stores exactly the given content at
`os.path.join(BEANS_DIR, name)`, and changes no other path and no
directory; if the open raises `IOError` it returns an error string
embedding the exception text and performs no file-system mutation. -/
theorem C4_write_guard (fs : FS) (file_name content : String) :
    (∀ o, strEndsWith file_name ".kt" = false →
      write_file fs o file_name content = ("Error: Only .kt files are allowed.", fs)) ∧
    (strEndsWith file_name ".kt" = true →
      (write_file fs OpenOutcome.opened file_name content).1
          = "Successfully wrote content to " ++ file_name ∧
      assocGet (write_file fs OpenOutcome.opened file_name content).2.files
          (os_path_join BEANS_DIR file_name) = some content ∧
      (∀ p, p ≠ os_path_join BEANS_DIR file_name →
        assocGet (write_file fs OpenOutcome.opened file_name content).2.files p
          = assocGet fs.files p) ∧
      (write_file fs OpenOutcome.opened file_name content).2.dirs = fs.dirs) ∧
    (∀ msg, strEndsWith file_name ".kt" = true →
      write_file fs (OpenOutcome.ioError msg) file_name content
        = ("Error writing to file: " ++ msg, fs)) := by
  refine ⟨?_, ?_, ?_⟩
  · intro o h
    simp [write_file, h]
  · intro h
    refine ⟨by simp [write_file, h], by simp [write_file, h, assocGet_set_self],
      ?_, by simp [write_file, h]⟩
    intro p hp
    simp [write_file, h, assocGet_set_ne fs.files _ content p hp]
  · intro msg h
    simp [write_file, h]

/-- **C4, witness.**  A rejected `.txt` write, an accepted `.kt` write, and
a failing open (missing parent directory in the name). -/
theorem C4_witness :
    write_file fs0 OpenOutcome.opened "Notes.txt" "x"
        = ("Error: Only .kt files are allowed.", fs0) ∧
    assocGet (write_file fs0 OpenOutcome.opened "User.kt" "class U").2.files
      (os_path_join BEANS_DIR "User.kt") = some "class U" ∧
    write_file fs0 (OpenOutcome.ioError "[Errno 2] No such file or directory")
        "sub/F.kt" "x"
      = ("Error writing to file: " ++ "[Errno 2] No such file or directory", fs0) :=
  ⟨(C4_write_guard fs0 "Notes.txt" "x").1 OpenOutcome.opened (by decide),
   ((C4_write_guard fs0 "User.kt" "class U").2.1 (by decide)).2.1,
   (C4_write_guard fs0 "sub/F.kt" "x").2.2
     "[Errno 2] No such file or directory" (by decide)⟩

/-! ## C5: no path sanitization beyond the extension check -/

/-- **C5.**  For every name ending in `.kt` — including `../x.kt` — the
write is never rejected by the extension guard (whatever the open then
does), and the path it opens is the unsanitized `os.path.join(BEANS_DIR,
name)`: a successful open stores the content exactly there.  Joining
`../x.kt` keeps the parent segment verbatim, and the operating system's
resolution of that path lands outside the beans directory (while a plain
name stays inside). -/
theorem C5_no_sanitization (fs : FS) (file_name content : String)
    (h : strEndsWith file_name ".kt" = true) :
    ((∀ o, (write_file fs o file_name content).1
        ≠ "Error: Only .kt files are allowed.") ∧
     (write_file fs OpenOutcome.opened file_name content).2.files
        = assocSet fs.files (os_path_join BEANS_DIR file_name) content) ∧
    os_path_join BEANS_DIR "../x.kt"
      = "./encapt-project/src/main/kotlin/org/camelai/beans/../x.kt" ∧
    pathUnder BEANS_DIR (os_path_join BEANS_DIR "../x.kt") = false ∧
    pathUnder BEANS_DIR (os_path_join BEANS_DIR "Sub.kt") = true := by
  refine ⟨⟨?_, by simp [write_file, h]⟩, by decide, by decide, by decide⟩
  intro o
  cases o with
  | opened =>
    simp only [write_file, h, Bool.not_true, Bool.false_eq_true, if_false]
    exact write_success_ne_reject file_name
  | ioError msg =>
    simp only [write_file, h, Bool.not_true, Bool.false_eq_true, if_false]
    exact write_error_ne_reject msg

/-- **C5, witness.**  The traversal name `../x.kt` passes the guard and a
successful open writes to the joined path. -/
theorem C5_witness :
    (write_file fs0 OpenOutcome.opened "../x.kt" "stub").1
        ≠ "Error: Only .kt files are allowed." ∧
    (write_file fs0 OpenOutcome.opened "../x.kt" "stub").2.files
        = assocSet fs0.files (os_path_join BEANS_DIR "../x.kt") "stub" :=
  ⟨(C5_no_sanitization fs0 "../x.kt" "stub" (by decide)).1.1 OpenOutcome.opened,
   (C5_no_sanitization fs0 "../x.kt" "stub" (by decide)).1.2⟩

/-! ## C8: idempotent directory creation -/

theorem create_error_ne_success (p d : String) :
    ("Error creating directory: File exists: " ++ p)
      ≠ ("Successfully created directory " ++ d) := by
  intro h
  have h1 : ("Error creating directory: File exists: " ++ p).data.head? = some 'E' :=
    data_head_append _ p 'E' rfl
  have h2 : ("Successfully created directory " ++ d).data.head? = some 'S' :=
    data_head_append _ d 'S' rfl
  rw [h, h2] at h1
  simp at h1

/-- **C8.**  If `create_directory` succeeds once (on a duplicate-free
directory record), calling it again with the same name also returns the
success string, leaves the file system exactly as it was, and exactly one
directory entry exists at the joined path. -/
theorem C8_idempotent (fs : FS) (d : String) (hnd : fs.dirs.Nodup)
    (h : (create_directory fs d).1 = "Successfully created directory " ++ d) :
    (create_directory (create_directory fs d).2 d).1
        = "Successfully created directory " ++ d ∧
    (create_directory (create_directory fs d).2 d).2 = (create_directory fs d).2 ∧
    (create_directory fs d).2.dirs.count (os_path_join BEANS_DIR d) = 1 := by
  by_cases hex : (assocGet fs.files (os_path_join BEANS_DIR d)).isSome = true
  · exfalso
    unfold create_directory at h
    rw [if_pos hex] at h
    exact create_error_ne_success _ _ h
  · have h1 : create_directory fs d
        = ("Successfully created directory " ++ d,
           { fs with dirs := fs.dirs.insert (os_path_join BEANS_DIR d) }) := by
      unfold create_directory
      rw [if_neg hex]
    rw [h1]
    have hmem : os_path_join BEANS_DIR d
        ∈ fs.dirs.insert (os_path_join BEANS_DIR d) :=
      List.mem_insert_self _ _
    refine ⟨?_, ?_, ?_⟩
    · unfold create_directory
      rw [if_neg hex]
    · unfold create_directory
      rw [if_neg hex]
      simp [List.insert_of_mem hmem]
    · by_cases hin : os_path_join BEANS_DIR d ∈ fs.dirs
      · rw [List.insert_of_mem hin]
        exact List.count_eq_one_of_mem hnd hin
      · rw [List.insert_of_not_mem hin, List.count_cons_self,
          List.count_eq_zero.mpr hin]

/-- **C8, witness.**  Creating `models` twice on an empty file system. -/
theorem C8_witness :
    (create_directory (create_directory fs0 "models").2 "models").1
        = "Successfully created directory " ++ "models" ∧
    (create_directory (create_directory fs0 "models").2 "models").2
        = (create_directory fs0 "models").2 ∧
    (create_directory fs0 "models").2.dirs.count
        (os_path_join BEANS_DIR "models") = 1 :=
  C8_idempotent fs0 "models" List.nodup_nil (by decide)

/-! ## C10: case-sensitive extension matching -/

/-- **C10.**  The loader keeps exactly the files whose name ends in the
lowercase `.kt`: a walked file named `Foo.KT` contributes nothing, while
`Foo.kt` is loaded; and `write_file` rejects the name `Foo.KT` with the
error string before any open is attempted, leaving the file system
untouched. -/
theorem C10_case_sensitive (root content : String) (files : List SrcFile)
    (fs : FS) (o : OpenOutcome) :
    load_beans ({ root := root, fileName := "Foo.KT", content := content } :: files)
        = load_beans files ∧
    write_file fs o "Foo.KT" content = ("Error: Only .kt files are allowed.", fs) ∧
    load_beans ({ root := root, fileName := "Foo.kt", content := content } :: files)
        = mkBean (os_path_join root "Foo.kt") content :: load_beans files := by
  have hKT : strEndsWith "Foo.KT" ".kt" = false := by decide
  have hkt : strEndsWith "Foo.kt" ".kt" = true := by decide
  refine ⟨?_, ?_, ?_⟩
  · simp [load_beans, List.filter_cons, hKT]
  · simp [write_file, hKT]
  · simp [load_beans, List.filter_cons, hkt]

/-! ## C3: the test-runner tool boundary -/

/-- **C3, counterexample.**  The claim says no exception escapes the tool
boundary on any failure; but only `CalledProcessError` is caught, so a spawn
failure (for example `./gradlew` missing, a `FileNotFoundError`) propagates
out of `run_all_bean_tests` instead of becoming an error string. -/
theorem C3_counterexample :
    run_all_bean_tests (SpawnOutcome.spawnFailure "No such file or directory: ./gradlew")
      = Except.error (PyError.osError "No such file or directory: ./gradlew") ∧
    run_specific_bean_test "UserService"
        (SpawnOutcome.spawnFailure "No such file or directory: ./gradlew")
      = Except.error (PyError.osError "No such file or directory: ./gradlew") := by
  exact ⟨rfl, rfl⟩

/-- **C3, amended.**  Whenever the test subprocess itself completes, no
exception escapes: exit status zero returns the captured standard output
verbatim, and a non-zero exit returns an error string embedding the captured
output; but an exception other than a non-zero exit (a spawn failure such as
the test command missing) propagates past the tool boundary. -/
theorem C3_amended (code : Nat) (so se : String) (name : String) (h : code ≠ 0) :
    run_all_bean_tests (SpawnOutcome.completed 0 so se) = Except.ok so ∧
    run_all_bean_tests (SpawnOutcome.completed code so se)
        = Except.ok ("Error running bean tests: " ++ so) ∧
    run_specific_bean_test name (SpawnOutcome.completed 0 so se) = Except.ok so ∧
    run_specific_bean_test name (SpawnOutcome.completed code so se)
        = Except.ok ("Error running test for " ++ name ++ ": " ++ so) ∧
    (∀ msg, run_all_bean_tests (SpawnOutcome.spawnFailure msg)
        = Except.error (PyError.osError msg)) := by
  refine ⟨rfl, ?_, rfl, ?_, fun msg => rfl⟩
  · simp [run_all_bean_tests, subprocess_run_checked, h]
  · simp [run_specific_bean_test, subprocess_run_checked, h]

/-- **C3, witness.**  Exit status 1 with captured output. -/
theorem C3_witness :
    run_all_bean_tests (SpawnOutcome.completed 0 "BUILD SUCCESSFUL" "")
        = Except.ok "BUILD SUCCESSFUL" ∧
    run_all_bean_tests (SpawnOutcome.completed 1 "2 tests failed" "")
        = Except.ok ("Error running bean tests: " ++ "2 tests failed") :=
  ⟨(C3_amended 1 "BUILD SUCCESSFUL" "" "X" (by decide)).1,
   (C3_amended 1 "2 tests failed" "" "X" (by decide)).2.1⟩

/-! ## C2: one worker per unit, peers listed -/

/-- With pairwise-distinct names, filtering out a bean's own name removes
exactly that bean. -/
theorem filter_ne_key_eraseIdx :
    ∀ (l : List QuarkusBean) (i : Nat) (hi : i < l.length),
      (l.map QuarkusBean.name).Nodup →
      l.filter (fun b => b.name ≠ (l.get ⟨i, hi⟩).name) = l.eraseIdx i := by
  intro l
  induction l with
  | nil => intro i hi _; exact absurd hi (Nat.not_lt_zero i)
  | cons x xs ih =>
    intro i hi hnd
    rw [List.map_cons, List.nodup_cons] at hnd
    obtain ⟨hx, hxs⟩ := hnd
    cases i with
    | zero =>
      show (x :: xs).filter (fun b => b.name ≠ x.name) = xs
      rw [List.filter_cons, if_neg (by simp)]
      exact List.filter_eq_self.mpr (fun b hb => decide_eq_true
        (fun hEq => hx (hEq ▸ List.mem_map_of_mem QuarkusBean.name hb)))
    | succ j =>
      have hj : j < xs.length := Nat.lt_of_succ_lt_succ hi
      show (x :: xs).filter (fun b => b.name ≠ (xs.get ⟨j, hj⟩).name)
          = x :: xs.eraseIdx j
      have hxk : x.name ≠ (xs.get ⟨j, hj⟩).name := fun hEq =>
        hx (hEq ▸ List.mem_map_of_mem QuarkusBean.name (List.get_mem xs j hj))
      rw [List.filter_cons, if_pos (decide_eq_true hxk), ih j hj hxs]

/-- **C2, counterexample.**  Two walked files both named `Foo.kt`, in
subdirectories `a` and `b`, load as two distinct units with the same name:
setup then creates two workers both named `Foo` (a duplicate, so the worker
name set is not in 1:1 correspondence with the units), and the first
worker's prompt lists no peer at all although another loaded unit exists. -/
theorem C2_counterexample :
    c2_beans.length = 2 ∧
    (c2_beans.map QuarkusBean.file_path).Nodup ∧
    (worker_agents c2_beans).map Prod.fst = ["Foo", "Foo"] ∧
    ¬ ((worker_agents c2_beans).map Prod.fst).Nodup ∧
    other_beans_listing c2_beans (c2_beans.headI).name = [] := by
  refine ⟨rfl, by decide, rfl, by decide, rfl⟩

/-- **C2, amended.**  For every loaded Unit set whose names are pairwise
distinct (including the empty set), the worker names are exactly the unit
names, one worker per unit in order, and every worker's prompt lists
exactly the name-and-doc entries of the other units, never its own. -/
theorem C2_amended (beans : List QuarkusBean)
    (h : (beans.map QuarkusBean.name).Nodup) :
    ((worker_agents beans).map Prod.fst = beans.map QuarkusBean.name) ∧
    (∀ i : Fin beans.length,
      other_beans_listing beans (beans.get i).name
        = (beans.eraseIdx i).map (fun b => b.name ++ ": " ++ b.doc_comment)) := by
  constructor
  · simp [worker_agents, List.map_map, Function.comp]
  · intro i
    refine congrArg (List.map _) ?_
    exact filter_ne_key_eraseIdx beans i.val i.isLt h

/-- **C2, witness.**  Two distinct units: worker names match and each
worker's peer listing is exactly the other unit. -/
theorem C2_witness :
    (worker_agents (load_beans
        [ { root := "r", fileName := "U.kt", content := "/** u */" },
          { root := "r", fileName := "V.kt", content := "/** v */" } ])).map Prod.fst
      = (load_beans
        [ { root := "r", fileName := "U.kt", content := "/** u */" },
          { root := "r", fileName := "V.kt", content := "/** v */" } ]).map
          QuarkusBean.name :=
  (C2_amended _ (by decide)).1

/-! ## C7: prompt composition is deterministic in the units' names and docs -/

/-- The peer listing reads only the names and docs of the beans. -/
theorem listing_eq_filterMap (bs : List QuarkusBean) (n : String) :
    other_beans_listing bs n
      = (bs.map beanProfile).filterMap
          (fun p => if p.1 ≠ n then some (p.1 ++ ": " ++ p.2) else none) := by
  induction bs with
  | nil => rfl
  | cons a as ih =>
    unfold other_beans_listing at ih ⊢
    rw [List.filter_cons, List.map_cons, List.filterMap_cons]
    by_cases hc : a.name ≠ n
    · simp [hc, beanProfile]
      simpa using ih
    · simp [hc, beanProfile]
      simpa using ih

/-- Two bean lists with the same names and docs produce the same worker
pairs, whichever sub-list is being mapped. -/
theorem worker_map_congr (bs1 bs2 : List QuarkusBean)
    (h : bs1.map beanProfile = bs2.map beanProfile) :
    ∀ sub1 sub2 : List QuarkusBean, sub1.map beanProfile = sub2.map beanProfile →
      sub1.map (fun b => (b.name, bean_agent_prompt bs1 b))
        = sub2.map (fun b => (b.name, bean_agent_prompt bs2 b)) := by
  intro sub1
  induction sub1 with
  | nil =>
    intro sub2 hs
    cases sub2 with
    | nil => rfl
    | cons b bs => simp at hs
  | cons a as ih =>
    intro sub2 hs
    cases sub2 with
    | nil => simp at hs
    | cons b bs =>
      simp only [List.map_cons, List.cons.injEq] at hs
      obtain ⟨hab, hrest⟩ := hs
      have hname : a.name = b.name := congrArg Prod.fst hab
      have hdoc : a.doc_comment = b.doc_comment := congrArg Prod.snd hab
      have hlist : other_beans_listing bs1 b.name = other_beans_listing bs2 b.name := by
        rw [listing_eq_filterMap, listing_eq_filterMap, h]
      have hprompt : bean_agent_prompt bs1 a = bean_agent_prompt bs2 b := by
        unfold bean_agent_prompt other_beans_line
        rw [hname, hdoc, hlist]
      rw [List.map_cons, List.map_cons, ih bs hrest, hname, hprompt]

/-- **C7.**  Setup is deterministic in the loaded units' names, docs and
order: two bean lists agreeing on those (whatever their file paths and
contents) give byte-identical manager and worker names and prompts. -/
theorem C7_deterministic (bs1 bs2 : List QuarkusBean)
    (h : bs1.map beanProfile = bs2.map beanProfile) :
    setup_workforce bs1 = setup_workforce bs2 := by
  unfold setup_workforce worker_agents
  rw [worker_map_congr bs1 bs2 h bs1 bs2 h]

/-- **C7, witness.**  Same name and doc, different file path and content:
the whole agent table coincides. -/
theorem C7_witness :
    setup_workforce
        [{ file_path := "x/A.kt", name := "A", content := "v1",
           doc_comment := "/** d */" }]
      = setup_workforce
        [{ file_path := "y/A.kt", name := "A", content := "v2",
           doc_comment := "/** d */" }] :=
  C7_deterministic _ _ (by decide)

end Encapt
